import Mathlib

/-!
Verification of `release_notes_generator.py` against its specification.

The Python source is shallowly embedded: strings are `List Char`, the fixed
regular expression of `GitCommit.parse_commit_message` is compiled by hand
into a deterministic matcher (the pattern admits no useful backtracking, as
argued in the comments), Python exceptions become `Option`/`Except`, and the
external `git` process is an oracle value (`ExecResult`) fed to the functions
that consume its output.
-/

/-- ASCII fragment of the `re` module's `\w` class (alphanumeric or underscore).
The repository only ever feeds it git tag names and commit subjects. -/
def isWordChar (c : Char) : Bool := c.isAlphanum || c == '_'

/-- ASCII fragment of Python's `\s` class / `str.split()` whitespace. -/
def isSpaceChar (c : Char) : Bool :=
  c == ' ' || c == '\t' || c == '\n' || c == '\r' || c == '\x0b' || c == '\x0c'

/-- Abbreviation turning a Lean string literal into the `List Char` the
embedding works over. -/
def chars (s : String) : List Char := s.data

/-- The suffix of the subject after the matched `:`.  In the pattern
`:\s*(.*)` the greedy `\s*` consumes the maximal whitespace run and `(.*)`
then captures everything up to the next newline (Python `.` does not match
`\n` without DOTALL). -/
def afterColonText (r : List Char) : List Char :=
  (r.dropWhile isSpaceChar).takeWhile (fun c => c != '\n')

/-- Hand-compiled matcher for `re.match(r'^(\w+)(?:\(([^)]+)\))?:\s*(.*)', s)`
(release_notes_generator.py line 40), returning the three capture groups.

Backtracking analysis justifying the deterministic shape:
* `(\w+)` first takes the maximal word run.  Shortening it never helps: the
  following character would then be a word character, which can match neither
  `\(` nor `:`.
* When the character after the word run is `(`, the optional group is
  attempted: `[^)]+` greedily takes the maximal run of non-`)` characters
  (shortening it would put a non-`)` character under `\)`), which must be
  non-empty and followed by `)` and then `:`.  If any of that fails, the
  empty-group alternative would need `:` to match the `(`, which is
  impossible, so the whole match fails.
* When it is not `(`, only the empty-group alternative remains and `:` must
  follow the word run immediately. -/
def matchConventional (s : List Char) :
    Option (List Char × List Char × List Char) :=
  let w := s.takeWhile isWordChar
  let rest := s.dropWhile isWordChar
  if w.isEmpty then none
  else
    match rest with
    | '(' :: r1 =>
        let inner := r1.takeWhile (fun c => c != ')')
        let r2 := r1.dropWhile (fun c => c != ')')
        if inner.isEmpty then none
        else
          match r2 with
          | ')' :: ':' :: r3 => some (w, inner, afterColonText r3)
          | _ => none
    | ':' :: r3 => some (w, [], afterColonText r3)
    | _ => none

/-- The literal fallback category. -/
def otherType : List Char := chars "other"

/-- `GitCommit.parse_commit_message` (release_notes_generator.py lines 29-54):
on a match, `(group(1).lower(), group(2) or "", group(3))`; otherwise the
`("other", "", message)` fallback.  `group(2)` can never be the empty string
(`[^)]+`), so `match.group(2) if match.group(2) else ""` is just the
None-to-empty conversion. -/
def parse_commit_message (message : List Char) :
    List Char × List Char × List Char :=
  match matchConventional message with
  | some (w, sc, d) => (w.map Char.toLower, sc, d)
  | none => (otherType, [], message)

example : parse_commit_message (chars "feat(auth): add login functionality") =
    (chars "feat", chars "auth", chars "add login functionality") := by decide

example : parse_commit_message (chars "chore(): ") =
    (otherType, [], chars "chore(): ") := by decide

example : parse_commit_message (chars "fix:desc") =
    (chars "fix", [], chars "desc") := by decide

example : parse_commit_message (chars "Update README file") =
    (otherType, [], chars "Update README file") := by decide

example : parse_commit_message (chars "feat(scope): fix: important issue") =
    (chars "feat", chars "scope", chars "fix: important issue") := by decide

/-- The part of the subject contributed by the optional parenthesized scope. -/
def scopePart : Option (List Char) → List Char
  | none => []
  | some s => '(' :: (s ++ [')'])

/-- Splitting a `takeWhile`/`dropWhile` scan at a known boundary: if every
character of `w` satisfies `p` and the first character of `r` (if any)
fails it, the scan consumes exactly `w`. -/
theorem takeWhile_append_of {p : Char → Bool} :
    ∀ w r : List Char, (∀ c ∈ w, p c = true) →
      r.head?.all (fun c => !p c) = true →
      (w ++ r).takeWhile p = w ∧ (w ++ r).dropWhile p = r
  | [], r, _, hr => by
      cases r with
      | nil => exact ⟨rfl, rfl⟩
      | cons c cs =>
          simp only [List.head?, Option.all] at hr
          have hpc : p c = false := by cases h : p c <;> simp [h] at hr ⊢
          simp [List.takeWhile_cons, List.dropWhile_cons, hpc]
  | a :: w, r, hw, hr => by
      have ha : p a = true := hw a (List.mem_cons_self a w)
      have ih := takeWhile_append_of w r (fun c hc => hw c (List.mem_cons_of_mem a hc)) hr
      simp [List.takeWhile_cons, List.dropWhile_cons, ha, ih.1, ih.2]

/-- A scan that accepts every character consumes the whole list. -/
theorem takeWhile_eq_self {p : Char → Bool} :
    ∀ l : List Char, (∀ c ∈ l, p c = true) → l.takeWhile p = l
  | [], _ => rfl
  | a :: l, h => by
      rw [List.takeWhile_cons, if_pos (h a (List.mem_cons_self a l)),
        takeWhile_eq_self l (fun c hc => h c (List.mem_cons_of_mem a hc))]

/-- `:\s*(.*)` after the colon: the greedy whitespace run `ws` is skipped and
a newline-free remainder that does not begin with whitespace is captured
verbatim. -/
theorem afterColonText_eq (ws desc : List Char)
    (hws : ∀ c ∈ ws, isSpaceChar c = true)
    (hd1 : desc.head?.all (fun c => !isSpaceChar c) = true)
    (hd2 : '\n' ∉ desc) :
    afterColonText (ws ++ desc) = desc := by
  unfold afterColonText
  rw [(takeWhile_append_of ws desc hws hd1).2]
  exact takeWhile_eq_self desc
    (fun c hc => bne_iff_ne.mpr (fun h => hd2 (h ▸ hc)))

/-- The matcher succeeds on every well-formed conventional subject and
returns exactly the three components. -/
theorem matchConventional_conventional
    (w ws desc : List Char) (sc : Option (List Char))
    (hw : w ≠ []) (hwc : ∀ c ∈ w, isWordChar c = true)
    (hsc : sc.all (fun s => !s.isEmpty && s.all (fun c => c != ')')) = true)
    (hws : ∀ c ∈ ws, isSpaceChar c = true)
    (hd1 : desc.head?.all (fun c => !isSpaceChar c) = true)
    (hd2 : '\n' ∉ desc) :
    matchConventional (w ++ scopePart sc ++ ':' :: (ws ++ desc)) =
      some (w, sc.getD [], desc) := by
  have hAfter : afterColonText (ws ++ desc) = desc := afterColonText_eq ws desc hws hd1 hd2
  cases sc with
  | none =>
      have hsplit := takeWhile_append_of (p := isWordChar) w (':' :: (ws ++ desc)) hwc rfl
      unfold matchConventional
      simp only [scopePart, List.append_nil, hsplit.1, hsplit.2]
      simp [List.isEmpty_iff, hw, hAfter]
  | some s =>
      simp only [Option.all] at hsc
      have hsE : s.isEmpty = false := by
        cases h : s.isEmpty <;> simp [h] at hsc ⊢
      have hsAll : ∀ c ∈ s, (c != ')') = true := by
        have := (Bool.and_eq_true _ _).mp hsc
        exact List.all_eq_true.mp this.2
      have hform : w ++ scopePart (some s) ++ ':' :: (ws ++ desc) =
          w ++ '(' :: (s ++ ')' :: ':' :: (ws ++ desc)) := by
        simp [scopePart]
      rw [hform]
      have hsplit := takeWhile_append_of (p := isWordChar) w
        ('(' :: (s ++ ')' :: ':' :: (ws ++ desc))) hwc rfl
      have hinner := takeWhile_append_of (p := fun c => c != ')') s
        (')' :: ':' :: (ws ++ desc)) hsAll rfl
      unfold matchConventional
      simp only [hsplit.1, hsplit.2, hinner.1, hinner.2]
      simp [List.isEmpty_iff, hw, hsE, hAfter]

/-- Claim C1: for every commit subject of the form
`type(scope): description` — a non-empty word token, an optional non-empty
parenthesized scope, a colon, a (possibly empty) whitespace run, then a
newline-free remainder beginning with a non-whitespace character —
`parse_commit_message` returns exactly the type lowercased, the inner scope
text (empty when absent), and the remainder verbatim, further colons
included. -/
theorem parse_commit_message_conventional
    (w ws desc : List Char) (sc : Option (List Char))
    (hw : w ≠ []) (hwc : ∀ c ∈ w, isWordChar c = true)
    (hsc : sc.all (fun s => !s.isEmpty && s.all (fun c => c != ')')) = true)
    (hws : ∀ c ∈ ws, isSpaceChar c = true)
    (hd1 : desc.head?.all (fun c => !isSpaceChar c) = true)
    (hd2 : '\n' ∉ desc) :
    parse_commit_message (w ++ scopePart sc ++ ':' :: (ws ++ desc)) =
      (w.map Char.toLower, sc.getD [], desc) := by
  unfold parse_commit_message
  rw [matchConventional_conventional w ws desc sc hw hwc hsc hws hd1 hd2]

/-- Witness for C1: the spec scenario `feat(auth): add login functionality`. -/
theorem parse_commit_message_conventional_witness :
    parse_commit_message (chars "feat" ++ scopePart (some (chars "auth")) ++
        ':' :: (chars " " ++ chars "add login functionality")) =
      ((chars "feat").map Char.toLower, (some (chars "auth")).getD [],
        chars "add login functionality") :=
  parse_commit_message_conventional (chars "feat") (chars " ")
    (chars "add login functionality") (some (chars "auth"))
    (by decide) (by decide) (by decide) (by decide) (by decide) (by decide)

/-- Claim C2: the parser is total and deterministic — every input yields a
`(category, scope, description)` triple, re-parsing gives the same triple
(the embedding is a function, so this is definitional), and every input the
pattern rejects degrades to `("other", "", original line)`. -/
theorem parse_commit_message_total (s : List Char) :
    (∃ c sc d, parse_commit_message s = (c, sc, d)) ∧
    parse_commit_message s = parse_commit_message s ∧
    (matchConventional s = none →
      parse_commit_message s = (otherType, [], s)) := by
  refine ⟨⟨_, _, _, rfl⟩, rfl, fun h => ?_⟩
  unfold parse_commit_message
  rw [h]

/-- Witness for C2 at the non-conventional subject `Update README file`. -/
theorem parse_commit_message_total_witness :
    parse_commit_message (chars "Update README file") =
      (otherType, [], chars "Update README file") :=
  (parse_commit_message_total (chars "Update README file")).2.2 (by decide)

/-- Claim C3: a literal empty scope `()` right after the word token makes the
whole pattern fail (`[^)]+` needs at least one character), so the subject
falls through to the `other` fallback with the entire line as description. -/
theorem parse_empty_scope_other (w rest : List Char)
    (hw : w ≠ []) (hwc : ∀ c ∈ w, isWordChar c = true) :
    parse_commit_message (w ++ '(' :: ')' :: rest) =
      (otherType, [], w ++ '(' :: ')' :: rest) := by
  have hsplit := takeWhile_append_of (p := isWordChar) w ('(' :: ')' :: rest) hwc rfl
  unfold parse_commit_message matchConventional
  simp only [hsplit.1, hsplit.2]
  simp [List.isEmpty_iff, hw]

/-- Witness for C3: the spec scenario `chore(): `. -/
theorem parse_empty_scope_other_witness :
    parse_commit_message (chars "chore" ++ '(' :: ')' :: chars ": ") =
      (otherType, [], chars "chore" ++ '(' :: ')' :: chars ": ") :=
  parse_empty_scope_other (chars "chore") (chars ": ") (by decide) (by decide)

/-- Claim C4 counterexample: the pattern uses `\s*`, so a subject with no
whitespace after the colon still matches; `fix:desc` parses as
`("fix", "", "desc")`, not as the claimed `other` fallback. -/
theorem parse_no_space_counterexample :
    parse_commit_message (chars "fix:desc") = (chars "fix", [], chars "desc") ∧
    parse_commit_message (chars "fix:desc") ≠
      (otherType, [], chars "fix:desc") := by decide

/-- Claim C4 amended: a subject consisting of a word token, an optional
non-empty parenthesized scope, a colon, and then immediately a
non-whitespace newline-free remainder DOES match the pattern (its
whitespace is `\s*`, zero-or-more): the result is the token lowercased, the
scope (empty when absent), and the remainder verbatim. -/
theorem parse_no_space_matches
    (w desc : List Char) (sc : Option (List Char))
    (hw : w ≠ []) (hwc : ∀ c ∈ w, isWordChar c = true)
    (hsc : sc.all (fun s => !s.isEmpty && s.all (fun c => c != ')')) = true)
    (hd1 : desc.head?.all (fun c => !isSpaceChar c) = true)
    (hd2 : '\n' ∉ desc) :
    parse_commit_message (w ++ scopePart sc ++ ':' :: desc) =
      (w.map Char.toLower, sc.getD [], desc) := by
  have h := matchConventional_conventional w [] desc sc hw hwc hsc
    (by intro c hc; cases hc) hd1 hd2
  simp only [List.nil_append] at h
  unfold parse_commit_message
  rw [h]

/-- Witness for the amended C4 at `fix:desc`. -/
theorem parse_no_space_matches_witness :
    parse_commit_message (chars "fix" ++ scopePart none ++ ':' :: chars "desc") =
      ((chars "fix").map Char.toLower, (none : Option (List Char)).getD [],
        chars "desc") :=
  parse_no_space_matches (chars "fix") (chars "desc") none
    (by decide) (by decide) (by decide) (by decide) (by decide)

/-- Split at the first occurrence of `sep`: `some (before, after)`, or
`none` when `sep` does not occur. -/
def breakAt (sep : Char) : List Char → Option (List Char × List Char)
  | [] => none
  | c :: cs =>
      if c = sep then some ([], cs)
      else
        match breakAt sep cs with
        | none => none
        | some (a, b) => some (c :: a, b)

/-- Python `str.split(sep, maxsplit)`; the `Nat` argument is the maxsplit. -/
def pySplitN (sep : Char) : Nat → List Char → List (List Char)
  | 0, s => [s]
  | n + 1, s =>
      match breakAt sep s with
      | none => [s]
      | some (a, b) => a :: pySplitN sep n b

/-- Python `str.split(sep)` without a limit; each split consumes at least
one character, so `s.length` splits always suffice. -/
def pySplit (sep : Char) (s : List Char) : List (List Char) :=
  pySplitN sep s.length s

/-- Python `str.strip(q)` for a one-character strip set. -/
def stripChar (q : Char) (s : List Char) : List Char :=
  ((s.dropWhile (fun c => c == q)).reverse.dropWhile (fun c => c == q)).reverse

/-- Python `str.strip()` (whitespace, ASCII fragment). -/
def pyStrip (s : List Char) : List Char :=
  ((s.dropWhile isSpaceChar).reverse.dropWhile isSpaceChar).reverse

/-- The apostrophe stripped by `line.strip("'")` (the `for-each-ref` format
string is quoted, so the quotes appear literally in the output). -/
def squote : Char := Char.ofNat 39

/-- Python `str.split()` with no arguments: the maximal nonempty runs of
non-whitespace characters. Fuel-driven; each round consumes at least one
character, so `s.length` rounds suffice. -/
def pyWordsAux : Nat → List Char → List (List Char)
  | 0, _ => []
  | n + 1, s =>
      match s.dropWhile isSpaceChar with
      | [] => []
      | c :: rest =>
          (c :: rest.takeWhile (fun d => !isSpaceChar d)) ::
            pyWordsAux n (rest.dropWhile (fun d => !isSpaceChar d))

def pyWords (s : List Char) : List (List Char) := pyWordsAux s.length s

/-- Numeric value of a digit string. -/
def natOfDigits (s : List Char) : Nat :=
  s.foldl (fun a c => a * 10 + (c.toNat - '0'.toNat)) 0

/-- A strptime `%m`/`%d` field: one or two digits with value in `1..hi`
(CPython's TimeRE patterns `1[0-2]|0[1-9]|[1-9]` and
`3[01]|[12]\d|0[1-9]|[1-9]`, i.e. `0` and `00` are rejected). -/
def fieldVal (s : List Char) (hi : Nat) : Option Nat :=
  if s.all Char.isDigit && (s.length == 1 || s.length == 2) &&
      decide (1 ≤ natOfDigits s) && decide (natOfDigits s ≤ hi) then
    some (natOfDigits s)
  else none

def isLeapYear (y : Nat) : Bool :=
  y % 4 == 0 && (y % 100 != 0 || y % 400 == 0)

def daysInMonth (y m : Nat) : Nat :=
  if m == 2 then (if isLeapYear y then 29 else 28)
  else if m == 4 || m == 6 || m == 9 || m == 11 then 30
  else 31

/-- `datetime.strptime(tok, "%Y-%m-%d")` plus the `datetime` constructor's
range checks, encoded as the sortable key `y*10000 + m*100 + d`
(order-isomorphic to lexicographic (y, m, d) since m ≤ 12 and d ≤ 31);
`none` models the ValueError path. `%Y` is exactly four digits, year 0 is
rejected (`datetime.MINYEAR` is 1), the whole token must be consumed, and
the day must exist in the given month. -/
def parseISODate (t : List Char) : Option Nat :=
  match t with
  | y1 :: y2 :: y3 :: y4 :: '-' :: rest =>
      if [y1, y2, y3, y4].all Char.isDigit then
        match breakAt '-' rest with
        | some (mpart, dpart) =>
            match fieldVal mpart 12, fieldVal dpart 31 with
            | some m, some d =>
                if 1 ≤ natOfDigits [y1, y2, y3, y4] ∧
                    d ≤ daysInMonth (natOfDigits [y1, y2, y3, y4]) m then
                  some (natOfDigits [y1, y2, y3, y4] * 10000 + m * 100 + d)
                else none
            | _, _ => none
        | none => none
      else none
  | _ => none

/-- The key `datetime.min` sorts with: 0001-01-01. -/
def minDateKey : Nat := 10101

/-- The date half of one tag line: `date_str.split()[0]` then strptime.
`none` models the IndexError raised by `[0]` on an empty split (which,
unlike ValueError, escapes the per-line handler); `some k` is the sorting
key, `datetime.min` when strptime raised ValueError. -/
def lineKey (date_str : List Char) : Option Nat :=
  match pyWords date_str with
  | [] => none
  | tok :: _ =>
      some (match parseISODate tok with
            | some k => k
            | none => minDateKey)

/-- The tag-collection loop of `get_latest_tags` (lines 136-145): lines
without a `|` are skipped; a line with a `|` is stripped of surrounding
apostrophes and split at the first `|` into tag and date string. `none`
models the IndexError that aborts the whole loop (caught by the outer
`except Exception`, sending `get_latest_tags` to its plain-listing
fallback). -/
def datedPairsOfLines : List (List Char) → Option (List (List Char × Nat))
  | [] => some []
  | line :: rest =>
      if line.any (fun c => c == '|') then
        match breakAt '|' (stripChar squote line) with
        | some (tag, date_str) =>
            match lineKey date_str with
            | none => none
            | some k =>
                match datedPairsOfLines rest with
                | some ps => some ((tag, k) :: ps)
                | none => none
        | none => datedPairsOfLines rest
            -- unreachable: stripping apostrophes never removes the `|`
      else datedPairsOfLines rest

/-- The ordering of `tags_with_date.sort(key=lambda x: x[1], reverse=True)`:
`a` may precede `b` iff `a`'s date key is at least `b`'s. Python's sort is
stable and `reverse=True` keeps the original order of equal keys, which is
exactly insertion sort under this relation. -/
def tagOrder (a b : List Char × Nat) : Prop := b.2 ≤ a.2

instance : DecidableRel tagOrder := fun a b => Nat.decLe b.2 a.2

instance : IsTotal (List Char × Nat) tagOrder :=
  ⟨fun a b => Nat.le_total b.2 a.2⟩

instance : IsTrans (List Char × Nat) tagOrder :=
  ⟨fun _ _ _ h1 h2 => Nat.le_trans h2 h1⟩

def sortTagsDesc (ps : List (List Char × Nat)) : List (List Char × Nat) :=
  List.insertionSort tagOrder ps

/-- Outcome of one `run_git_command` call as its caller observes it: the
stripped stdout on success, `cpe` for `subprocess.CalledProcessError`,
`exn` for any other exception. -/
inductive ExecResult where
  | out (s : List Char)
  | cpe
  | exn
deriving DecidableEq

/-- The `git tag -l` fallback of `get_latest_tags` (lines 153-158): split
the output on newlines when non-empty; empty output or any exception
yields `[]`. -/
def splitTagFallback : ExecResult → List (List Char)
  | .out s => if s.isEmpty then [] else pySplit '\n' s
  | _ => []

/-- `ReleaseNotesGenerator.get_latest_tags` (lines 119-158), the two `git`
invocations supplied as oracle values. The `is_git_repo` guard of line 126
is a precondition modelled at the `generate_release_notes` level. An empty
(falsy) primary output skips the dated path; an exception anywhere in it —
including the IndexError modelled by `datedPairsOfLines = none` — falls
back to the plain listing. -/
def get_latest_tags (listing fallbackListing : ExecResult) :
    List (List Char) :=
  match listing with
  | .out raw =>
      if raw.isEmpty then splitTagFallback fallbackListing
      else
        match datedPairsOfLines (pySplit '\n' raw) with
        | some ps => (sortTagsDesc ps).map Prod.fst
        | none => splitTagFallback fallbackListing
  | _ => splitTagFallback fallbackListing

example : get_latest_tags
    (.out (chars "v1.2.0|2023-03-01 10:00:00 +0000\nv1.0.0|2023-01-01 10:00:00 +0000\nv1.1.0|2023-02-01 10:00:00 +0000"))
    .cpe = [chars "v1.2.0", chars "v1.1.0", chars "v1.0.0"] := by decide

example : get_latest_tags (.out (chars "v2|garbage\nv1|2023-05-05")) .cpe =
    [chars "v1", chars "v2"] := by decide

example : get_latest_tags .cpe (.out (chars "a\nb")) =
    [chars "a", chars "b"] := by decide

example : parseISODate (chars "2023-02-29") = none := by decide

example : parseISODate (chars "2024-2-29") = some 20240229 := by decide

/-- Claim C5 counterexample: on a tag line with an empty date after the `|`
(`A|`), `date_str.split()[0]` raises IndexError; the surrounding
`except Exception` abandons date-based sorting entirely and returns the
plain `git tag -l` listing, so tag `A` is NOT sorted as if it had the
minimum date (which would give `[B, A]`). -/
theorem get_latest_tags_empty_date_counterexample :
    get_latest_tags (.out (chars "A|\nB|2023-01-01")) (.out (chars "A\nB")) =
      [chars "A", chars "B"] ∧
    get_latest_tags (.out (chars "A|\nB|2023-01-01")) (.out (chars "A\nB")) ≠
      [chars "B", chars "A"] := by decide

/-- Claim C5 amended: whenever the per-line date extraction never hits the
empty-date IndexError (modelled by `datedPairsOfLines` succeeding),
`get_latest_tags` returns the tag names of a permutation of the extracted
pairs sorted descending by date key, and a line whose nonempty date token
fails strptime parsing is keyed with the minimum date; an empty date after
the `|` instead abandons the date path and falls back to the plain listing,
in neither case crashing (the embedding is total). -/
theorem get_latest_tags_sorted (raw : List Char) (fb : ExecResult)
    (ps : List (List Char × Nat))
    (hraw : raw.isEmpty = false)
    (h : datedPairsOfLines (pySplit '\n' raw) = some ps) :
    get_latest_tags (.out raw) fb = (sortTagsDesc ps).map Prod.fst ∧
    (sortTagsDesc ps).Perm ps ∧
    List.Sorted tagOrder (sortTagsDesc ps) ∧
    (∀ d tok more, pyWords d = tok :: more → parseISODate tok = none →
      lineKey d = some minDateKey) := by
  refine ⟨?_, List.perm_insertionSort tagOrder ps,
    List.sorted_insertionSort tagOrder ps, ?_⟩
  · have hstep : get_latest_tags (.out raw) fb =
        (if raw.isEmpty = true then splitTagFallback fb
         else
           match datedPairsOfLines (pySplit '\n' raw) with
           | some ps => (sortTagsDesc ps).map Prod.fst
           | none => splitTagFallback fb) := rfl
    rw [hstep, hraw, h]
    simp
  · intro d tok more hwords hp
    simp [lineKey, hwords, hp]

/-- Witness for the amended C5: the spec's scenario
`2023-03-01 → A, 2023-01-01 → B, 2023-02-01 → C` yields `[A, C, B]`. -/
theorem get_latest_tags_sorted_witness :
    get_latest_tags (.out (chars "A|2023-03-01\nB|2023-01-01\nC|2023-02-01"))
      .cpe = [chars "A", chars "C", chars "B"] := by
  have h := (get_latest_tags_sorted
    (chars "A|2023-03-01\nB|2023-01-01\nC|2023-02-01") .cpe
    [(chars "A", 20230301), (chars "B", 20230101), (chars "C", 20230201)]
    (by decide) (by decide)).1
  rw [h]; decide

/-- The fatal errors `generate_release_notes` can raise (lines 289-299, and
the un-caught failure of the commit-range query). -/
inductive GenError where
  | notARepo
  | noTags
  | needTwoTags
  | logFailed
deriving DecidableEq

instance {ε α : Type} [DecidableEq ε] [DecidableEq α] :
    DecidableEq (Except ε α) := fun x y =>
  match x, y with
  | .ok a, .ok b =>
      if h : a = b then .isTrue (by rw [h])
      else .isFalse (fun hh => h (Except.ok.inj hh))
  | .error a, .error b =>
      if h : a = b then .isTrue (by rw [h])
      else .isFalse (fun hh => h (Except.error.inj hh))
  | .ok _, .error _ => .isFalse (fun hh => Except.noConfusion hh)
  | .error _, .ok _ => .isFalse (fun hh => Except.noConfusion hh)

/-- Tag resolution of `generate_release_notes` (lines 295-309): the
minimum-cardinality guards, then the defaulting of the end tag to the
newest tag and of the start tag to the first tag of `all_tags[1:]` that
differs from the resolved end tag (the loop starts at index 1, never
reconsidering the newest tag). A caller-absent selection (`None` or the
falsy empty string) is `none`; a start selection that no tag of the tail
can satisfy stays `none`, mirroring `start_tag` remaining `None`. -/
def selectTags (allTags : List (List Char)) (s e : Option (List Char)) :
    Except GenError (Option (List Char) × List Char) :=
  match allTags with
  | [] => .error .noTags
  | [_] => .error .needTwoTags
  | t0 :: rest =>
      let e2 := match e with
        | some x => x
        | none => t0
      let s2 := match s with
        | some x => some x
        | none => rest.find? (fun t => decide (t ≠ e2))
      .ok (s2, e2)

/-- Claim C6 counterexample: with ordered tags `[X, Y, Z]`, caller-supplied
end tag `Y` and no start tag, the loop over `all_tags[1:]` resolves the
start tag to `Z`, whereas the first tag of the full ordered list that
differs from `Y` — what the claim requires — is `X`. -/
theorem selectTags_counterexample :
    selectTags [chars "X", chars "Y", chars "Z"] none (some (chars "Y")) =
      .ok (some (chars "Z"), chars "Y") ∧
    List.find? (fun t => decide (t ≠ chars "Y"))
      [chars "X", chars "Y", chars "Z"] = some (chars "X") ∧
    selectTags [chars "X", chars "Y", chars "Z"] none (some (chars "Y")) ≠
      .ok (some (chars "X"), chars "Y") := by decide

/-- Claim C6 amended: for every ordered tag list with at least two tags,
when the caller supplies no end tag the resolved end tag is the first
(newest) tag; when the caller supplies no start tag the resolved start tag
is the first tag of the TAIL of the list (all tags after the newest) that
differs from the resolved end tag — which coincides with the claim whenever
the end tag is also left to default — and any start tag so resolved lies in
that tail and differs from the resolved end tag. -/
theorem selectTags_defaults (t0 t1 : List Char) (rest : List (List Char))
    (s e : Option (List Char)) :
    (∃ s2, selectTags (t0 :: t1 :: rest) s none = .ok (s2, t0)) ∧
    (selectTags (t0 :: t1 :: rest) none e =
      .ok ((t1 :: rest).find? (fun t => decide (t ≠ e.getD t0)), e.getD t0)) ∧
    (∀ x, (t1 :: rest).find? (fun t => decide (t ≠ e.getD t0)) = some x →
      x ≠ e.getD t0 ∧ x ∈ t1 :: rest) := by
  refine ⟨?_, ?_, ?_⟩
  · cases s with
    | none => exact ⟨_, rfl⟩
    | some x => exact ⟨_, rfl⟩
  · cases e with
    | none => rfl
    | some x => rfl
  · intro x hx
    have hp := List.find?_some hx
    simp only [decide_eq_true_eq] at hp
    exact ⟨hp, List.mem_of_find?_eq_some hx⟩

/-- Witness for the amended C6 at tags `[v2, v1]` with both selections
absent: end resolves to `v2`, start to `v1`. -/
theorem selectTags_defaults_witness :
    selectTags [chars "v2", chars "v1"] none none =
      .ok (some (chars "v1"), chars "v2") := by
  have h := (selectTags_defaults (chars "v2") (chars "v1") [] none none).2.1
  rw [h]; decide

/-- The ancestry-correction step of `generate_release_notes`
(lines 311-330). Outer `try`: `merge-base start end` runs with
`allow_failure=True`, so a `CalledProcessError` (no common ancestor)
becomes `None`; a falsy result (`None` or empty output) skips the
correction. Inner `try`: `merge-base --is-ancestor start end` runs without
`allow_failure`; its `CalledProcessError` (nonzero exit, i.e. start not
an ancestor of end) is caught and the tags are swapped, while exit 0 keeps
the order. Any other exception from either command reaches the outer bare
`except: pass` and the original order is kept. -/
def ancestryCorrection (mb ia : ExecResult) (st en : List Char) :
    List Char × List Char :=
  match mb with
  | .cpe => (st, en)
  | .exn => (st, en)
  | .out s =>
      if s.isEmpty then (st, en)
      else
        match ia with
        | .out _ => (st, en)
        | .cpe => (en, st)
        | .exn => (st, en)

/-- Claim C7: the ancestry correction (i) keeps the pair when the
common-ancestor query reports no relation, (ii) swaps it when a common
ancestor exists and the is-ancestor check reports start is not an ancestor
of end, (iii) keeps it when start is an ancestor of end, and (iv)/(v)
swallows any other failure of either ancestry command, keeping the
original order without aborting. -/
theorem ancestryCorrection_spec (mb ia : ExecResult) (st en : List Char) :
    (mb = .cpe → ancestryCorrection mb ia st en = (st, en)) ∧
    (∀ s, mb = .out s → s.isEmpty = false → ia = .cpe →
      ancestryCorrection mb ia st en = (en, st)) ∧
    (∀ s t, mb = .out s → s.isEmpty = false → ia = .out t →
      ancestryCorrection mb ia st en = (st, en)) ∧
    (mb = .exn → ancestryCorrection mb ia st en = (st, en)) ∧
    (ia = .exn → ancestryCorrection mb ia st en = (st, en)) := by
  refine ⟨?_, ?_, ?_, ?_, ?_⟩
  · rintro rfl; rfl
  · rintro s rfl hs rfl
    simp [ancestryCorrection, hs]
  · rintro s t rfl hs rfl
    simp [ancestryCorrection, hs]
  · rintro rfl; rfl
  · rintro rfl
    cases mb <;> simp [ancestryCorrection]

/-- Witness for C7: a non-empty merge-base plus a failing is-ancestor check
swaps the tags. -/
theorem ancestryCorrection_spec_witness :
    ancestryCorrection (.out (chars "deadbeef")) .cpe (chars "v2") (chars "v1") =
      (chars "v1", chars "v2") :=
  (ancestryCorrection_spec (.out (chars "deadbeef")) .cpe (chars "v2")
    (chars "v1")).2.1 (chars "deadbeef") rfl (by decide) rfl

/-- `GitCommit` (lines 19-27): the four raw fields plus the derived triple
computed in `__init__` from the subject. -/
structure GitCommit where
  hash : List Char
  subject : List Char
  author : List Char
  date : List Char
  type : List Char
  scope : List Char
  description : List Char
deriving DecidableEq

/-- The `GitCommit` constructor: store the raw fields and derive
`(type, scope, description)` by parsing the subject (line 27). -/
def mkGitCommit (hash subject author date : List Char) : GitCommit :=
  { hash := hash, subject := subject, author := author, date := date,
    type := (parse_commit_message subject).1,
    scope := (parse_commit_message subject).2.1,
    description := (parse_commit_message subject).2.2 }

/-- `ReleaseNotesGenerator.COMMIT_TYPES` (lines 61-79), in insertion
order. -/
def COMMIT_TYPES : List (List Char × List Char) :=
  [(chars "feat", chars "Features"),
   (chars "feature", chars "Features"),
   (chars "fix", chars "Bug Fixes"),
   (chars "bugfix", chars "Bug Fixes"),
   (chars "perf", chars "Performance Improvements"),
   (chars "performance", chars "Performance Improvements"),
   (chars "refactor", chars "Code Refactoring"),
   (chars "style", chars "Styling"),
   (chars "chore", chars "Chores"),
   (chars "docs", chars "Documentation"),
   (chars "doc", chars "Documentation"),
   (chars "test", chars "Tests"),
   (chars "testing", chars "Tests"),
   (chars "build", chars "Build System"),
   (chars "ci", chars "Continuous Integration"),
   (chars "revert", chars "Reverts"),
   (chars "other", chars "Other Changes")]

def typeKeys : List (List Char) := COMMIT_TYPES.map Prod.fst

/-- One iteration of the categorization loop (lines 208-214): the commit is
appended to its own type's bucket when the dict has that key, otherwise to
`other`. The dict is an insertion-ordered association list whose key set
never changes, like the Python dict pre-seeded with every key. -/
def addCommit (d : List (List Char × List GitCommit)) (c : GitCommit) :
    List (List Char × List GitCommit) :=
  let tgt := if d.any (fun p => decide (p.1 = c.type)) then c.type
             else otherType
  d.map (fun p => if p.1 = tgt then (p.1, p.2 ++ [c]) else p)

/-- `ReleaseNotesGenerator.categorize_commits` (lines 192-217): seed every
key with an empty bucket, fold the commits through the loop body, then drop
the empty buckets. -/
def categorize_commits (commits : List GitCommit) :
    List (List Char × List GitCommit) :=
  (commits.foldl addCommit
      (COMMIT_TYPES.map (fun p => (p.1, ([] : List GitCommit))))).filter
    (fun p => !p.2.isEmpty)

/-- The bucket a commit lands in: its own type when that is a known key,
else `other`. -/
def catKey (c : GitCommit) : List Char :=
  if c.type ∈ typeKeys then c.type else otherType

example : categorize_commits
    [mkGitCommit (chars "abc123") (chars "feat: add new feature") (chars "A") (chars "d"),
     mkGitCommit (chars "def456") (chars "unknown: some commit") (chars "A") (chars "d")] =
    [(chars "feat",
      [mkGitCommit (chars "abc123") (chars "feat: add new feature") (chars "A") (chars "d")]),
     (chars "other",
      [mkGitCommit (chars "def456") (chars "unknown: some commit") (chars "A") (chars "d")])] := by
  decide

/-- Bumping the bucket of a single key in a canonical key-indexed table. -/
theorem map_bump (ks : List (List Char)) (f : List Char → List GitCommit)
    (T : List Char) (c : GitCommit) :
    (ks.map (fun k => (k, f k))).map
        (fun p => if p.1 = T then (p.1, p.2 ++ [c]) else p) =
      ks.map (fun k => (k, f k ++ if T = k then [c] else [])) := by
  induction ks with
  | nil => rfl
  | cons k ks ih =>
      simp only [List.map_cons, ih]
      by_cases h : k = T
      · simp [h]
      · simp [h, Ne.symm h]

/-- On a canonical table the membership test of `addCommit` is membership
of the key list. -/
theorem any_key_eq (ks : List (List Char)) (f : List Char → List GitCommit)
    (a : List Char) :
    (ks.map (fun k => (k, f k))).any (fun p => decide (p.1 = a)) =
      decide (a ∈ ks) := by
  induction ks with
  | nil => rfl
  | cons k ks ih =>
      by_cases h : k = a
      · simp [h]
      · simp [List.any_cons, h, Ne.symm h, ih]

/-- `addCommit` on a canonical table appends the commit to exactly its
`catKey` bucket. -/
theorem addCommit_canon (f : List Char → List GitCommit) (c : GitCommit) :
    addCommit (typeKeys.map (fun k => (k, f k))) c =
      typeKeys.map (fun k => (k, f k ++ if catKey c = k then [c] else [])) := by
  unfold addCommit
  rw [any_key_eq typeKeys f c.type]
  by_cases h : c.type ∈ typeKeys
  · have h2 : catKey c = c.type := by simp [catKey, h]
    simp only [h, decide_eq_true_eq, if_pos, h2]
    exact map_bump typeKeys f c.type c
  · have h2 : catKey c = otherType := by simp [catKey, h]
    simp only [decide_eq_true_eq, if_neg h, h2]
    exact map_bump typeKeys f otherType c

/-- Folding the whole commit list distributes into per-key filters,
preserving input order inside each bucket. -/
theorem foldl_addCommit (commits : List GitCommit) :
    ∀ f : List Char → List GitCommit,
    commits.foldl addCommit (typeKeys.map (fun k => (k, f k))) =
      typeKeys.map
        (fun k => (k, f k ++ commits.filter (fun c => decide (catKey c = k)))) := by
  induction commits with
  | nil =>
      intro f
      simp
  | cons c cs ih =>
      intro f
      rw [List.foldl_cons, addCommit_canon f c,
        ih (fun k => f k ++ if catKey c = k then [c] else [])]
      apply List.map_congr_left
      intro k _
      rw [List.append_assoc]
      refine congrArg (fun l => (k, f k ++ l)) ?_
      rw [List.filter_cons]
      by_cases h : catKey c = k
      · simp [h]
      · simp [h]

/-- `categorize_commits` is the non-empty per-key filters, in key order. -/
theorem categorize_commits_eq (commits : List GitCommit) :
    categorize_commits commits =
      (typeKeys.map
          (fun k => (k, commits.filter (fun c => decide (catKey c = k))))).filter
        (fun p => !p.2.isEmpty) := by
  unfold categorize_commits
  rw [show COMMIT_TYPES.map (fun p => (p.1, ([] : List GitCommit))) =
      typeKeys.map (fun k => (k, ([] : List GitCommit))) from by decide]
  rw [foldl_addCommit commits (fun _ => [])]
  simp

theorem not_isEmpty_of_mem {α : Type} {c : α} {l : List α} (h : c ∈ l) :
    (!l.isEmpty) = true := by
  cases l with
  | nil => cases h
  | cons a l => rfl

theorem ne_nil_of_not_isEmpty {α : Type} {l : List α}
    (h : (!l.isEmpty) = true) : l ≠ [] := by
  cases l with
  | nil => simp at h
  | cons a l => simp

/-- Dropping empty buckets does not change the concatenation of the
buckets. -/
theorem join_filter_nonempty (X : List (List Char × List GitCommit)) :
    ((X.filter (fun p => !p.2.isEmpty)).map Prod.snd).join =
      (X.map Prod.snd).join := by
  induction X with
  | nil => rfl
  | cons p X ih =>
      rw [List.filter_cons]
      by_cases h : p.2.isEmpty = true
      · have h2 : p.2 = [] := by
          cases hq : p.2 with
          | nil => rfl
          | cons a l => rw [hq] at h; simp at h
        simp [h, h2, ih]
      · simp [h, ih]

/-- Filtering for key `k` is unaffected by first removing the elements
keyed `k0` when `k ≠ k0`. -/
theorem filter_drop_other (k0 k : List Char) (hne : k ≠ k0) :
    ∀ l : List GitCommit,
      (l.filter (fun c => !decide (catKey c = k0))).filter
          (fun c => decide (catKey c = k)) =
        l.filter (fun c => decide (catKey c = k))
  | [] => rfl
  | c :: l => by
      by_cases h0 : catKey c = k0
      · have hk : ¬ catKey c = k := fun h => hne (h.symm.trans h0)
        simp [List.filter_cons, h0, hk, hne.symm, filter_drop_other k0 k hne l]
      · by_cases hk : catKey c = k
        · simp [List.filter_cons, h0, hk, hne, filter_drop_other k0 k hne l]
        · simp [List.filter_cons, h0, hk, hne, filter_drop_other k0 k hne l]

/-- Concatenating per-key filters over nodup keys that cover every element
yields a permutation of the original list. -/
theorem join_filters_perm :
    ∀ (ks : List (List Char)) (l : List GitCommit), ks.Nodup →
      (∀ c ∈ l, catKey c ∈ ks) →
      ((ks.map (fun k => l.filter (fun c => decide (catKey c = k)))).join).Perm l
  | [], l, _, hcov => by
      cases l with
      | nil => exact List.Perm.refl _
      | cons c l => exact absurd (hcov c (List.mem_cons_self c l)) (by simp)
  | k0 :: ks, l, hnd, hcov => by
      have hk0 : k0 ∉ ks := (List.nodup_cons.mp hnd).1
      have hsub : ∀ c ∈ l.filter (fun c => !decide (catKey c = k0)),
          catKey c ∈ ks := by
        intro c hc
        have hmf := List.mem_filter.mp hc
        have hne : ¬ catKey c = k0 := by simpa using hmf.2
        rcases List.mem_cons.mp (hcov c hmf.1) with h | h
        · exact absurd h hne
        · exact h
      have hperm2 := join_filters_perm ks
        (l.filter (fun c => !decide (catKey c = k0)))
        (List.nodup_cons.mp hnd).2 hsub
      have hmapeq :
          ks.map (fun k =>
            (l.filter (fun c => !decide (catKey c = k0))).filter
              (fun c => decide (catKey c = k))) =
          ks.map (fun k => l.filter (fun c => decide (catKey c = k))) := by
        apply List.map_congr_left
        intro k hk
        exact filter_drop_other k0 k (fun h => hk0 (h ▸ hk)) l
      rw [hmapeq] at hperm2
      rw [List.map_cons]
      show ((l.filter (fun c => decide (catKey c = k0))) ++
          (ks.map (fun k =>
            l.filter (fun c => decide (catKey c = k)))).join).Perm l
      exact (hperm2.append_left _).trans
        (List.filter_append_perm (fun c => decide (catKey c = k0)) l)

/-- Every commit's bucket key is a known key (`other` is one). -/
theorem catKey_mem (c : GitCommit) : catKey c ∈ typeKeys := by
  unfold catKey
  split
  · assumption
  · decide

/-- Claim C8: `categorize_commits` binds no key to an empty list; every
bucket is exactly the in-order filter of the input by its key (hence a
sublist, preserving relative order); the concatenation of all buckets is a
permutation of the input; and every input commit lies in exactly one
bucket (commits whose type is not in the fixed table land in `other`,
which `catKey` captures). -/
theorem categorize_commits_spec (commits : List GitCommit) :
    (∀ p ∈ categorize_commits commits, p.2 ≠ []) ∧
    (∀ p ∈ categorize_commits commits,
      p.2 = commits.filter (fun c => decide (catKey c = p.1)) ∧
      p.2.Sublist commits) ∧
    (((categorize_commits commits).map Prod.snd).join).Perm commits ∧
    (∀ c ∈ commits, ∃! p, p ∈ categorize_commits commits ∧ c ∈ p.2) := by
  have hchar := categorize_commits_eq commits
  refine ⟨?_, ?_, ?_, ?_⟩
  · intro p hp
    rw [hchar] at hp
    exact ne_nil_of_not_isEmpty (List.mem_filter.mp hp).2
  · intro p hp
    rw [hchar] at hp
    rcases List.mem_map.mp (List.mem_filter.mp hp).1 with ⟨k, _, hpk⟩
    cases hpk
    exact ⟨rfl, List.filter_sublist _⟩
  · rw [hchar, join_filter_nonempty, List.map_map]
    exact join_filters_perm typeKeys commits (by decide)
      (fun c _ => catKey_mem c)
  · intro c hc
    have hcf : c ∈ commits.filter (fun d => decide (catKey d = catKey c)) :=
      List.mem_filter.mpr ⟨hc, by simp⟩
    refine ⟨(catKey c, commits.filter (fun d => decide (catKey d = catKey c))),
      ⟨?_, hcf⟩, ?_⟩
    · rw [hchar]
      exact List.mem_filter.mpr
        ⟨List.mem_map.mpr ⟨catKey c, catKey_mem c, rfl⟩,
          not_isEmpty_of_mem hcf⟩
    · rintro q ⟨hq, hcq⟩
      rw [hchar] at hq
      rcases List.mem_map.mp (List.mem_filter.mp hq).1 with ⟨k, _, hqk⟩
      cases hqk
      have hck : catKey c = k := by simpa using (List.mem_filter.mp hcq).2
      subst hck
      rfl

/-- A concrete commit used by the C8 witness. -/
def demoCommit : GitCommit :=
  mkGitCommit (chars "abc123") (chars "feat: add login") (chars "A")
    (chars "2023-01-01")

/-- Witness for C8: the demo commit lies in exactly one bucket of its
singleton categorization. -/
theorem categorize_commits_spec_witness :
    ∃! p, p ∈ categorize_commits [demoCommit] ∧ demoCommit ∈ p.2 :=
  (categorize_commits_spec [demoCommit]).2.2.2 demoCommit
    (List.mem_singleton_self demoCommit)

/-- One line of the `git log --pretty=format:%H|%an|%ad|%s` output
(lines 183-188): blank (whitespace-only) lines are skipped; the line is
split at the first three `|`s (`split('|', 3)`, so at most four parts);
lines with fewer than four fields are skipped (with at most four parts,
`len(parts) >= 4` means exactly four, so the unpacking succeeds);
otherwise a `GitCommit` is built from the hash truncated to its first
eight characters, with the subject — everything after the third `|` —
kept intact. -/
def parseLogLine (line : List Char) : Option GitCommit :=
  if (pyStrip line).isEmpty then none
  else
    match pySplitN '|' 3 line with
    | hsh :: a :: d :: s :: [] => some (mkGitCommit (hsh.take 8) s a d)
    | _ => none

/-- The output-parsing loop of `get_commits_between_tags` (lines 181-189):
empty (falsy) output yields no commits; otherwise split the output into
lines and keep the parseable ones in order. -/
def parseLogOutput (raw : List Char) : List GitCommit :=
  if raw.isEmpty then []
  else (pySplit '\n' raw).filterMap parseLogLine

/-- `get_commits_between_tags` (lines 160-190) with the `git log` call as
an oracle: the command runs without `allow_failure`, so any failure
propagates as a fatal error. -/
def get_commits_between_tags (logResult : ExecResult) :
    Except GenError (List GitCommit) :=
  match logResult with
  | .out raw => .ok (parseLogOutput raw)
  | _ => .error .logFailed

/-- Python `str.title()` (ASCII fragment): the first letter of every
alphabetic run uppercased, the rest lowercased. In `generate_markdown`
this default is only reachable for keys outside `COMMIT_TYPES`, which
`categorize_commits` never produces; embedded for fidelity. -/
def pyTitleAux : Bool → List Char → List Char
  | _, [] => []
  | prevAlpha, c :: cs =>
      if c.isAlpha then
        (if prevAlpha then c.toLower else c.toUpper) :: pyTitleAux true cs
      else c :: pyTitleAux false cs

def pyTitle (s : List Char) : List Char := pyTitleAux false s

/-- `self.COMMIT_TYPES.get(commit_type, commit_type.title())` (line 257). -/
def lookupDisplay (k : List Char) : List Char :=
  match COMMIT_TYPES.find? (fun p => decide (p.1 = k)) with
  | some p => p.2
  | none => pyTitle k

/-- Decimal rendering of a number inside an f-string. -/
def natChars (n : Nat) : List Char := (Nat.repr n).data

example : natChars 12 = chars "12" := by decide

/-- `generate_markdown` (lines 219-271), the current date passed in as its
only impure input. A `None` or empty (falsy) custom title falls back to
`Release <end_tag>`; the author count is the number of distinct authors
(`len(set(...))`). -/
def generate_markdown (start_tag end_tag : List Char)
    (commits : List GitCommit) (version_title : Option (List Char))
    (today : List Char) : List Char :=
  let title := match version_title with
    | some t => if t.isEmpty then chars "Release " ++ end_tag else t
    | none => chars "Release " ++ end_tag
  let header := chars "# " ++ title ++ chars "\n\n" ++
    chars "**Release Date:** " ++ today ++ chars "\n\n" ++
    chars "**Tags:** `" ++ start_tag ++ chars "` ... `" ++ end_tag ++
    chars "`\n\n"
  if commits.isEmpty then header ++ chars "No significant changes.\n\n"
  else
    let summary := chars "**Summary:** " ++ natChars commits.length ++
      chars " commits by " ++
      natChars ((commits.map (fun c => c.author)).dedup).length ++
      chars " authors\n\n"
    let sections := ((categorize_commits commits).map (fun p =>
      chars "## " ++ lookupDisplay p.1 ++ chars "\n\n" ++
      (p.2.map (fun c =>
        chars "- " ++ c.description ++
        (if c.scope.isEmpty then [] else
          chars " **(" ++ c.scope ++ chars ")**") ++
        chars " ([`" ++ c.hash ++
        chars "`](https://github.com/unknown/unknown/commit/" ++
        c.hash ++ chars "))\n")).join ++
      chars "\n")).join
    let allSection := chars "## All Commits\n\n" ++
      (commits.map (fun c =>
        chars "- [`" ++ c.subject ++ chars "`](" ++ c.hash ++
        chars ") - " ++ c.author ++ chars "\n")).join
    header ++ summary ++ sections ++ allSection

/-- The external inputs of one `generate_release_notes` run. -/
structure GitOracle where
  isRepo : Bool
  tagListing : ExecResult
  tagFallback : ExecResult
  mergeBase : ExecResult
  isAncestor : ExecResult
  gitLog : ExecResult
  today : List Char

/-- Observable outcome of a run: the returned markdown or the raised
error, the commit ranges passed to `git log`, and the content written to
the output file. -/
structure GenOutcome where
  result : Except GenError (List Char)
  logQueried : List (List Char × List Char)
  written : Option (List Char)
deriving DecidableEq

def latestTags (g : GitOracle) : List (List Char) :=
  get_latest_tags g.tagListing g.tagFallback

/-- `generate_release_notes` (lines 273-353): the repository check, tag
enumeration, the no-tags and fewer-than-two-tags guards, tag defaulting,
the ancestry correction (skipped with the order kept when the start
selection stayed unresolved: the `merge-base` call then raises a
TypeError on the `None` argument, which the outer bare `except`
swallows), the fatal commit-range query (the f-string renders an
unresolved start as the literal `None`), markdown generation, and the
file write. -/
def generate_release_notes (g : GitOracle)
    (start_tag end_tag version_title : Option (List Char)) : GenOutcome :=
  if g.isRepo = false then ⟨.error .notARepo, [], none⟩
  else
    match selectTags (latestTags g) start_tag end_tag with
    | .error err => ⟨.error err, [], none⟩
    | .ok (sOpt, e2) =>
        let pair := match sOpt with
          | none => (chars "None", e2)
          | some st => ancestryCorrection g.mergeBase g.isAncestor st e2
        match get_commits_between_tags g.gitLog with
        | .error err => ⟨.error err, [pair], none⟩
        | .ok commits =>
            let md := generate_markdown pair.1 pair.2 commits version_title
              g.today
            ⟨.ok md, [pair], some md⟩

example : (generate_release_notes
    { isRepo := true,
      tagListing := .out (chars "v1.1.0|2023-02-01\nv1.0.0|2023-01-01"),
      tagFallback := .cpe, mergeBase := .cpe, isAncestor := .cpe,
      gitLog := .out (chars "abcdef1234|A|2023-01-05|feat: x"),
      today := chars "2023-02-02" } none none none).logQueried =
    [(chars "v1.0.0", chars "v1.1.0")] := by decide

/-- Claim C9: with fewer than two known tags (zero or one),
`generate_release_notes` fails with a configuration error — `noTags` or
`needTwoTags` — before any commit-range query is attempted, and no output
file is written. The embedding is a pure function of one oracle reading,
so the run is not retried. -/
theorem generate_release_notes_few_tags (g : GitOracle)
    (s e vt : Option (List Char))
    (hrepo : g.isRepo = true)
    (hlen : (latestTags g).length < 2) :
    ∃ err, generate_release_notes g s e vt =
        { result := .error err, logQueried := [], written := none } ∧
      (err = GenError.noTags ∨ err = GenError.needTwoTags) := by
  cases htags : latestTags g with
  | nil =>
      refine ⟨.noTags, ?_, Or.inl rfl⟩
      simp [generate_release_notes, hrepo, htags, selectTags]
  | cons t rest =>
      cases rest with
      | nil =>
          refine ⟨.needTwoTags, ?_, Or.inr rfl⟩
          simp [generate_release_notes, hrepo, htags, selectTags]
      | cons t2 r2 =>
          rw [htags] at hlen
          simp at hlen
          omega

/-- The single-tag oracle used by the C9 witness. -/
def oneTagOracle : GitOracle :=
  { isRepo := true, tagListing := .out (chars "v1.0.0|2023-01-01"),
    tagFallback := .cpe, mergeBase := .cpe, isAncestor := .cpe,
    gitLog := .out (chars "abcdef1234|A|2023-01-05|feat: x"),
    today := chars "2023-02-02" }

/-- Witness for C9: one known tag fails fast with a configuration error,
no range queried, nothing written. -/
theorem generate_release_notes_few_tags_witness :
    ∃ err, generate_release_notes oneTagOracle none none none =
        { result := .error err, logQueried := [], written := none } ∧
      (err = GenError.noTags ∨ err = GenError.needTwoTags) :=
  generate_release_notes_few_tags oneTagOracle none none none rfl (by decide)

theorem isEmpty_eq_false_of_mem {α : Type} {c : α} {l : List α}
    (h : c ∈ l) : l.isEmpty = false := by
  cases l with
  | nil => cases h
  | cons a l => rfl

/-- An element failing the predicate survives `dropWhile`. -/
theorem mem_dropWhile_of_not {p : Char → Bool} {c : Char}
    (hc : p c = false) : ∀ l : List Char, c ∈ l → c ∈ l.dropWhile p
  | x :: l, hmem => by
      by_cases hx : p x = true
      · rw [List.dropWhile_cons, if_pos hx]
        rcases List.mem_cons.mp hmem with h | h
        · rw [h] at hc; rw [hc] at hx; cases hx
        · exact mem_dropWhile_of_not hc l h
      · rw [List.dropWhile_cons, if_neg hx]
        exact hmem

/-- A line containing a non-whitespace character does not strip to
empty. -/
theorem pyStrip_not_empty {c : Char} (hc : isSpaceChar c = false)
    {l : List Char} (hmem : c ∈ l) : (pyStrip l).isEmpty = false := by
  unfold pyStrip
  have h1 := mem_dropWhile_of_not hc l hmem
  have h2 := mem_dropWhile_of_not hc _ (List.mem_reverse.mpr h1)
  exact isEmpty_eq_false_of_mem (List.mem_reverse.mpr h2)

/-- `breakAt` splits exactly at the first separator. -/
theorem breakAt_append {sep : Char} :
    ∀ x : List Char, sep ∉ x → ∀ y : List Char,
      breakAt sep (x ++ sep :: y) = some (x, y)
  | [], _, y => by simp [breakAt]
  | c :: x, hsep, y => by
      have hcne : ¬ c = sep := fun h => hsep (h ▸ List.mem_cons_self c x)
      simp [breakAt, hcne,
        breakAt_append x (fun hm => hsep (List.mem_cons_of_mem c hm)) y]

/-- One `split(sep, maxsplit)` step at a separator-free leading field. -/
theorem pySplitN_succ (sep : Char) (n : Nat) (x y : List Char)
    (hx : sep ∉ x) :
    pySplitN sep (n + 1) (x ++ sep :: y) = x :: pySplitN sep n y := by
  simp [pySplitN, breakAt_append x hx y]

/-- `split('|', 3)` on a well-formed log line yields its four fields. -/
theorem pySplitN_log (hsh a d s : List Char)
    (hh : '|' ∉ hsh) (ha : '|' ∉ a) (hd : '|' ∉ d) :
    pySplitN '|' 3 (hsh ++ '|' :: (a ++ '|' :: (d ++ '|' :: s))) =
      [hsh, a, d, s] := by
  rw [show (3 : Nat) = 2 + 1 from rfl, pySplitN_succ '|' 2 hsh _ hh,
    show (2 : Nat) = 1 + 1 from rfl, pySplitN_succ '|' 1 a _ ha,
    show (1 : Nat) = 0 + 1 from rfl, pySplitN_succ '|' 0 d _ hd]
  rfl

/-- Claim C10: `get_commits_between_tags` silently drops every log line
that is blank or splits into fewer than four `|`-separated fields; for a
retained `hash|author|date|subject` line (hash, author and date are
`|`-free — the subject may contain further `|`s, as the split stops after
three) the stored identifier is the hash truncated to its first eight
characters and the subject field is preserved intact. -/
theorem parseLogLine_spec (line hsh a d s : List Char)
    (hh : '|' ∉ hsh) (ha : '|' ∉ a) (hd : '|' ∉ d) :
    ((pyStrip line).isEmpty = true ∨ (pySplitN '|' 3 line).length < 4 →
      parseLogLine line = none) ∧
    parseLogLine (hsh ++ '|' :: (a ++ '|' :: (d ++ '|' :: s))) =
      some (mkGitCommit (hsh.take 8) s a d) := by
  constructor
  · intro hor
    unfold parseLogLine
    by_cases hblank : (pyStrip line).isEmpty = true
    · simp [hblank]
    · have hfew : (pySplitN '|' 3 line).length < 4 := by
        rcases hor with h | h
        · exact absurd h hblank
        · exact h
      rcases hsp : pySplitN '|' 3 line with
        _ | ⟨p1, _ | ⟨p2, _ | ⟨p3, _ | ⟨p4, rest⟩⟩⟩⟩
      · simp [hblank, hsp]
      · simp [hblank, hsp]
      · simp [hblank, hsp]
      · simp [hblank, hsp]
      · rw [hsp] at hfew
        simp at hfew
        omega
  · have hmem : '|' ∈ hsh ++ '|' :: (a ++ '|' :: (d ++ '|' :: s)) :=
      List.mem_append.mpr (Or.inr (List.mem_cons_self _ _))
    have hstrip := pyStrip_not_empty (c := '|') rfl hmem
    unfold parseLogLine
    rw [hstrip, pySplitN_log hsh a d s hh ha hd]
    rfl

/-- Witness for C10: a line whose subject itself contains a `|` parses to
the 8-character hash and the intact subject. -/
theorem parseLogLine_spec_witness :
    parseLogLine (chars "deadbeef12345" ++ '|' :: (chars "Alice" ++ '|' ::
        (chars "2023-01-01" ++ '|' :: chars "feat: x|y"))) =
      some (mkGitCommit ((chars "deadbeef12345").take 8) (chars "feat: x|y")
        (chars "Alice") (chars "2023-01-01")) :=
  (parseLogLine_spec [] (chars "deadbeef12345") (chars "Alice")
    (chars "2023-01-01") (chars "feat: x|y")
    (by decide) (by decide) (by decide)).2
